import Mathlib

/-!
Verification of the tag-report time-tracking tool (src/main.rs, src/visualizations.rs).

Shallow embedding conventions:
* A timezone-aware instant is its epoch-second value (`Int`).  `chrono`
  sub-second precision is irrelevant to the properties below, which are stated
  in epoch seconds exactly as the code's `.timestamp()` calls are.
* A `chrono_tz::Tz` is modelled by the two operations the code uses on it:
  `date_naive` (the local calendar date of an instant, as an abstract day
  index) and `midnight` (the instant of local midnight of a given day index,
  i.e. `with_time(NaiveTime::MIN).single().unwrap()` of an instant on that
  day).  `checked_add_days(Days::new(1)).with_time(MIN)` is local midnight of
  the next day index.  The `.unwrap()` calls on these constructions are
  modelled as total functions: `Timezone.WF` states the facts that hold for
  real timezone data whenever those unwraps succeed (monotone local dates,
  each day's midnight lies on that day and is a lower bound of the day).
* `utcTz` is the concrete UTC instance (86400-second days, `Int.ediv` floor
  division, which is what chrono's timestamp/day arithmetic does for UTC).
* The `while` loop of `split_interval` is translated with an explicit fuel
  argument; the fuel chosen in `split_interval` strictly exceeds the number
  of local days spanned, which is exactly the number of iterations of the
  source loop for a well-formed timezone.
-/

/-- A timezone, modelled by the two operations `split_interval` and
`group_by_day` perform on `chrono::DateTime<Tz>` values: local calendar date
of an instant, and the instant of local midnight of a calendar day. -/
structure Timezone where
  date_naive : Int → Int
  midnight : Int → Int

/-- Facts true of real timezone data whenever the source's midnight
constructions (`with_time(NaiveTime::MIN).single()`, `checked_add_days`)
succeed: local dates are monotone in the instant, the local midnight of day
`d` falls on day `d`, and an instant lies between the midnight of its own day
(inclusive) and the midnight of the next day (exclusive). -/
structure Timezone.WF (tz : Timezone) : Prop where
  date_mono : ∀ t u : Int, t ≤ u → tz.date_naive t ≤ tz.date_naive u
  date_midnight : ∀ d : Int, tz.date_naive (tz.midnight d) = d
  midnight_le : ∀ t : Int, tz.midnight (tz.date_naive t) ≤ t
  lt_next_midnight : ∀ t : Int, t < tz.midnight (tz.date_naive t + 1)

/-- UTC: days are 86400 seconds, the local date of an instant is its floor
division by 86400 (`Int.ediv` is floor division for a positive divisor). -/
def utcTz : Timezone where
  date_naive t := t / 86400
  midnight d := d * 86400

/-- The body of `split_interval`'s `while current <= *end` loop
(src/main.rs:60-78), with explicit fuel.  The same-day branch pushes
`(current, end.with_time(MIN) + (end - current))` and breaks; the other
branch pushes `(current, tomorrow-midnight)` and advances `current`. -/
def splitGo (tz : Timezone) (e : Int) : Nat → Int → List (Int × Int)
  | 0, _ => []
  | fuel + 1, current =>
    if current ≤ e then
      if tz.date_naive current = tz.date_naive e then
        [(current, tz.midnight (tz.date_naive e) + (e - current))]
      else
        (current, tz.midnight (tz.date_naive current + 1)) ::
          splitGo tz e fuel (tz.midnight (tz.date_naive current + 1))
    else []

/-- Function `split_interval` (src/main.rs:54-80): split `[start, end]` at local
midnights of the target timezone.  The fuel strictly exceeds the number of
local days spanned, which bounds the source loop's iteration count. -/
def split_interval (tz : Timezone) (start e : Int) : List (Int × Int) :=
  splitGo tz e ((tz.date_naive e - tz.date_naive start).toNat + 1) start

/-- Predicate `SegChain a L b`: the pairs in `L` are contiguous, starting at `a` and
ending at `b` (an empty `L` forces `a = b`). -/
def SegChain (a : Int) : List (Int × Int) → Int → Prop
  | [], b => a = b
  | p :: rest, b => p.1 = a ∧ SegChain p.2 rest b

/-- The error kinds of `chrono::format::ParseError` (an external collaborator
of the grouper); its Rust `Debug` rendering is `parseErrorDebug`. -/
inductive ParseErrorKind where
  | outOfRange
  | impossible
  | notEnough
  | invalid
  | tooShort
  | tooLong
  | badFormat
  deriving DecidableEq

/-- Type `chrono::format::ParseError` is a newtype around its kind. -/
structure ParseError where
  kind : ParseErrorKind
  deriving DecidableEq

/-- The Rust `Debug` rendering of a `chrono::format::ParseError`, as it
appears in the panic message of `.unwrap()`. -/
def parseErrorDebug (e : ParseError) : String :=
  "ParseError(" ++
    (match e.kind with
      | .outOfRange => "OutOfRange"
      | .impossible => "Impossible"
      | .notEnough => "NotEnough"
      | .invalid => "Invalid"
      | .tooShort => "TooShort"
      | .tooLong => "TooLong"
      | .badFormat => "BadFormat") ++ ")"

/-- The message of the panic raised by `.unwrap()` on an `Err` value, which is
how `group_by_day` aborts on a malformed timestamp (src/main.rs:96-105). -/
def unwrapMsg (e : ParseError) : String :=
  "called `Result::unwrap()` on an `Err` value: " ++ parseErrorDebug e

/-- A deserialized CSV record (struct `Record`, src/main.rs:34-40).  The
source field `end` is spelled `end_` because `end` is reserved in Lean. -/
structure Record where
  start : String
  end_ : String
  tags : String
  description : String
  deriving DecidableEq

/-- One element of `group_by_day`'s result vector
`(i64, i64, Vec<String>, String)`; field names follow the spec's
ClippedSegment. -/
structure ClippedSegment where
  start_epoch_seconds : Int
  end_epoch_seconds : Int
  tags : List String
  description : String
  deriving DecidableEq

/-- Rust `str::split` on a single separator character, over the character
list: substrings between separator occurrences, keeping empty pieces (an
empty input yields one empty piece, as `"".split(' ')` does). -/
def splitChar (c : Char) : List Char → List (List Char)
  | [] => [[]]
  | x :: xs =>
    if x = c then [] :: splitChar c xs
    else
      match splitChar c xs with
      | [] => [[x]]
      | w :: rest => (x :: w) :: rest

/-- Model of `record.tags.split(' ').map(|s| s.to_string()).collect()`
(src/main.rs:117,127): split on single spaces, no trimming, no
de-duplication; an empty field yields the one-element list `[""]`. -/
def splitTags (s : String) : List String :=
  (splitChar ' ' s.data).map (fun l => String.mk l)

/-- Membership in the half-open `Range` `start_seconds..end_seconds`
(`range.contains`, src/main.rs:92,108,123). -/
def inR (ws we x : Int) : Prop :=
  ws ≤ x ∧ x < we

instance (ws we x : Int) : Decidable (inR ws we x) :=
  inferInstanceAs (Decidable (_ ∧ _))

/-- Resolution of a record's `end` field (src/main.rs:100-106): an empty
field means "now"; the current instant is an injected clock value, as §9 of
the spec prescribes for testability.  Timestamp parsing
(`DateTime::parse_from_rfc3339`, an external collaborator) is likewise
injected as `parse`. -/
def resolveEnd (parse : String → Except ParseError Int) (now : Int)
    (r : Record) : Except ParseError Int :=
  if r.end_ = "" then .ok now else parse r.end_

/-- The tuple pushed onto `res` (src/main.rs:114-118, 124-129): bounds clamped
to the window by `max`/`min`. -/
def clip (ws we : Int) (tags : List String) (descr : String)
    (p : Int × Int) : ClippedSegment :=
  ⟨max p.1 ws, min p.2 we, tags, descr⟩

/-- The per-record body of `group_by_day`'s loop (src/main.rs:94-132).
A `.unwrap()` panic on a malformed timestamp is `.error` with the Rust panic
message; `continue` is `.ok []`. -/
def processRecord (parse : String → Except ParseError Int) (tz : Timezone)
    (now ws we : Int) (r : Record) : Except String (List ClippedSegment) :=
  match parse r.start with
  | .error e => .error (unwrapMsg e)
  | .ok ts =>
    match resolveEnd parse now r with
    | .error e => .error (unwrapMsg e)
    | .ok te =>
      if ¬ inR ws we ts ∧ ¬ inR ws we te then .ok []
      else if tz.date_naive ts = tz.date_naive te then
        .ok [clip ws we (splitTags r.tags) r.description (ts, te)]
      else
        .ok ((split_interval tz ts te).filterMap fun p =>
          if inR ws we p.1 ∨ inR ws we p.2 then
            some (clip ws we (splitTags r.tags) r.description p)
          else none)

/-- Function `group_by_day` (src/main.rs:82-135) over already-deserialized records
(CSV framing is glue outside the core; a malformed row would abort just like
a malformed timestamp).  Record order and, within a record, splitter order
are preserved; the first failure aborts the whole run. -/
def group_by_day (parse : String → Except ParseError Int) (tz : Timezone)
    (now : Int) : List Record → Int → Int → Except String (List ClippedSegment)
  | [], _, _ => .ok []
  | r :: rs, ws, we =>
    match processRecord parse tz now ws we r with
    | .error m => .error m
    | .ok segs =>
      match group_by_day parse tz now rs ws we with
      | .error m => .error m
      | .ok rest => .ok (segs ++ rest)

/-- Whether a run outcome is a fatal abort (an `Err` or a panic) rather than a
report. -/
def isFatal (x : Except String (List ClippedSegment)) : Bool :=
  match x with
  | .error _ => true
  | .ok _ => false

/-- A concrete stand-in for the external RFC3339 parser: a finite table of
well-formed timestamp strings; anything else fails like chrono's
`ParseError(Invalid)`. -/
def parseFix (table : List (String × Int)) (s : String) :
    Except ParseError Int :=
  match table.find? (fun p => p.1 = s) with
  | some p => .ok p.2
  | none => .error ⟨.invalid⟩

/-- Rust's width-2 zero-padded formatting of an integer, as in
`format!` with the `0>2` spec (src/main.rs:139-144). -/
def rustPad2 (n : Int) : String :=
  let s := toString n
  if s.length < 2 then String.mk (List.replicate (2 - s.length) '0') ++ s else s

/-- Function `fmt_duration` (src/main.rs:137-145).  `Duration::seconds(x).num_seconds()`
is the identity on the seconds value; Rust `i64` division and remainder
truncate toward zero, i.e. `Int.tdiv`/`Int.tmod`. -/
def fmt_duration (seconds : Int) : String :=
  rustPad2 ((seconds.tdiv 60).tdiv 60) ++ ":" ++
    rustPad2 ((seconds.tdiv 60).tmod 60) ++ ":" ++
    rustPad2 (seconds.tmod 60)

/-- The formatter as the spec words it: hours = total/3600 truncated,
minutes = (total/60) mod 60, seconds = total mod 60 (for comparison with
`fmt_duration`, whose hours field is computed as (total/60)/60). -/
def fmt_duration_specForm (seconds : Int) : String :=
  rustPad2 (seconds.tdiv 3600) ++ ":" ++
    rustPad2 ((seconds.tdiv 60).tmod 60) ++ ":" ++
    rustPad2 (seconds.tmod 60)

/-- The `DateRange` iterator (src/visualizations.rs:13-25): all days from
`a` to `b` inclusive, empty when `a > b`. -/
def DateRange (a b : Int) : List Int :=
  if a ≤ b then
    (List.range ((b - a).toNat + 1)).map (fun (i : Nat) => a + (i : Int))
  else []

/-- The value plotted for day `d` (src/visualizations.rs:61-69): the grouped
sum of `end - start` over segments whose clipped start falls on local day `d`
when the group map has an entry for `d` (i.e. some segment starts then),
otherwise the zero fill of the `None` arm. -/
def dayTotal (tz : Timezone) (data : List (Int × Int)) (d : Int) : Int :=
  if data.any (fun e => tz.date_naive e.1 == d) then
    ((data.filter (fun e => tz.date_naive e.1 == d)).map (fun e => e.2 - e.1)).sum
  else 0

/-- The data preparation of `bar` (src/visualizations.rs:53-72): one (label, value)
pair per day of `DateRange`, then unzipped into the axis-label list and the
value list.  The ISO label of a day is the external `NaiveDate` `Display`,
injected as `toIso`. -/
def bar (tz : Timezone) (toIso : Int → String) (data : List (Int × Int))
    (startDay endDay : Int) : List String × List Int :=
  ((DateRange startDay endDay).map
    (fun date => (toIso date, dayTotal tz data date))).unzip

/-- One step of tag counting (src/visualizations.rs:27-36):
`*count_map.entry(string).or_insert(0) += 1`, on an association list standing
for the `HashMap` content. -/
def bump : List (String × Nat) → String → List (String × Nat)
  | [], s => [(s, 1)]
  | (k, n) :: rest, s =>
    if k = s then (k, n + 1) :: rest else (k, n) :: bump rest s

/-- The `HashMap` built by `count`'s loop (src/visualizations.rs:28-31). -/
def countFold (strings : List String) : List (String × Nat) :=
  strings.foldl bump []

/-- Function `count` (src/visualizations.rs:27-36): the map's entries as
(occurrence count, tag) pairs.  (The Rust `count as f64` cast is dropped:
counts are the `Nat` values themselves.) -/
def count (strings : List String) : List (Nat × String) :=
  (countFold strings).map (fun p => (p.2, p.1))

/-- Lookup of a tag's count in the map content, 0 when absent. -/
def lookupCount : List (String × Nat) → String → Nat
  | [], _ => 0
  | (k, n) :: rest, t => if k = t then n else lookupCount rest t

/-- Sum of all per-tag counts of a map content. -/
def sumCounts (l : List (String × Nat)) : Nat :=
  (l.map Prod.snd).sum

/-- All tag occurrences across segments, as flattened by
`entries.iter().flat_map(|entry| &entry.2)` (src/main.rs:177). -/
def tagOccurrences (entries : List ClippedSegment) : List String :=
  entries.flatMap ClippedSegment.tags

/-- Whether the first character list starts the second one. -/
def leadsWith : List Char → List Char → Bool
  | [], _ => true
  | _ :: _, [] => false
  | x :: xs, y :: ys => decide (x = y) && leadsWith xs ys

/-- Whether `needle` occurs contiguously anywhere in the haystack (used to
ask whether a diagnostic string surfaces a given field name or raw value). -/
def hasSub (needle : List Char) : List Char → Bool
  | [] => leadsWith needle []
  | y :: ys => leadsWith needle (y :: ys) || hasSub needle ys

theorem utcTz_wf : utcTz.WF := by
  constructor
  · intro t u h
    simp only [utcTz]
    omega
  · intro d
    simp only [utcTz]
    omega
  · intro t
    simp only [utcTz]
    omega
  · intro t
    simp only [utcTz]
    omega

theorem Timezone.WF.midnight_mono {tz : Timezone} (h : tz.WF) {d d' : Int}
    (hdd : d ≤ d') : tz.midnight d ≤ tz.midnight d' := by
  by_contra hlt
  push_neg at hlt
  have h1 : tz.date_naive (tz.midnight d') ≤ tz.date_naive (tz.midnight d) :=
    h.date_mono _ _ (le_of_lt hlt)
  rw [h.date_midnight, h.date_midnight] at h1
  have : d = d' := le_antisymm hdd h1
  subst this
  exact absurd rfl (ne_of_gt hlt)

theorem segChain_sum {L : List (Int × Int)} :
    ∀ {a b : Int}, SegChain a L b → ((L.map fun p => p.2 - p.1).sum) = b - a := by
  induction L with
  | nil => intro a b h; simp [SegChain] at h; simp [h]
  | cons p rest ih =>
    intro a b h
    obtain ⟨h1, h2⟩ := h
    simp only [List.map_cons, List.sum_cons, ih h2, h1]
    ring

theorem segChain_last_mem {L : List (Int × Int)} :
    ∀ {a b : Int}, SegChain a L b → L ≠ [] → ∃ p, p ∈ L ∧ p.2 = b := by
  induction L with
  | nil => intro a b _ hne; exact absurd rfl hne
  | cons p rest ih =>
    intro a b h _
    obtain ⟨_, h2⟩ := h
    cases rest with
    | nil =>
      refine ⟨p, List.mem_cons_self _ _, ?_⟩
      simpa [SegChain] using h2
    | cons q tail =>
      obtain ⟨r, hr, hrb⟩ := ih h2 (by simp)
      exact ⟨r, List.mem_cons_of_mem _ hr, hrb⟩

theorem splitGo_spec {tz : Timezone} (h : tz.WF) (e : Int) :
    ∀ (fuel : Nat) (current : Int), current ≤ e →
      (tz.date_naive e - tz.date_naive current).toNat < fuel →
      (tz.date_naive current = tz.date_naive e →
        current = tz.midnight (tz.date_naive e)) →
      SegChain current (splitGo tz e fuel current) e ∧
        splitGo tz e fuel current ≠ [] ∧
        ∀ p ∈ splitGo tz e fuel current, p.1 ≤ p.2 := by
  intro fuel
  induction fuel with
  | zero => intro current _ hf _; exact absurd hf (Nat.not_lt_zero _)
  | succ n ih =>
    intro current hce hf hm
    by_cases hd : tz.date_naive current = tz.date_naive e
    · have hcm := hm hd
      simp only [splitGo, if_pos hce, if_pos hd]
      refine ⟨⟨rfl, ?_⟩, by simp, ?_⟩
      · show tz.midnight (tz.date_naive e) + (e - current) = e
        rw [← hcm]; ring
      · intro p hp
        rw [List.mem_singleton] at hp
        subst hp
        show current ≤ tz.midnight (tz.date_naive e) + (e - current)
        rw [← hcm]; omega
    · have hlt : tz.date_naive current < tz.date_naive e :=
        lt_of_le_of_ne (h.date_mono _ _ hce) hd
      have hdm : tz.date_naive (tz.midnight (tz.date_naive current + 1)) =
          tz.date_naive current + 1 := h.date_midnight _
      have hmle : tz.midnight (tz.date_naive current + 1) ≤ e := by
        have h2 : tz.midnight (tz.date_naive current + 1) ≤
            tz.midnight (tz.date_naive e) := h.midnight_mono (by omega)
        have h3 : tz.midnight (tz.date_naive e) ≤ e := h.midnight_le e
        omega
      have hcur_lt : current < tz.midnight (tz.date_naive current + 1) :=
        h.lt_next_midnight current
      have hf' : (tz.date_naive e -
          tz.date_naive (tz.midnight (tz.date_naive current + 1))).toNat < n := by
        rw [hdm]; omega
      have hm' : tz.date_naive (tz.midnight (tz.date_naive current + 1)) =
          tz.date_naive e →
          tz.midnight (tz.date_naive current + 1) =
            tz.midnight (tz.date_naive e) := by
        intro hh
        rw [hdm] at hh
        rw [hh]
      obtain ⟨ihc, _, ihle⟩ := ih _ hmle hf' hm'
      simp only [splitGo, if_pos hce, if_neg hd]
      refine ⟨⟨rfl, ihc⟩, by simp, ?_⟩
      intro p hp
      rcases List.mem_cons.mp hp with hp1 | hp2
      · subst hp1; exact le_of_lt hcur_lt
      · exact ihle p hp2

theorem split_interval_spec {tz : Timezone} (h : tz.WF) {s e : Int}
    (hse : s ≤ e)
    (hm : tz.date_naive s = tz.date_naive e → s = tz.midnight (tz.date_naive e)) :
    SegChain s (split_interval tz s e) e ∧
      split_interval tz s e ≠ [] ∧
      ∀ p ∈ split_interval tz s e, p.1 ≤ p.2 :=
  splitGo_spec h e _ s hse (Nat.lt_succ_self _) hm

theorem tdiv_tdiv_sixty (s : Int) (h : 0 ≤ s) :
    (s.tdiv 60).tdiv 60 = s.tdiv 3600 := by
  rw [Int.tdiv_eq_ediv h (by norm_num),
    Int.tdiv_eq_ediv (Int.ediv_nonneg h (by norm_num)) (by norm_num),
    Int.tdiv_eq_ediv h (by norm_num)]
  omega

/-- C1: the claim says a same-local-date pair splits into exactly one
interval equal to `(start, end)`.  The code does return exactly one interval,
but its end is `local-midnight-of-end's-date + (end - start)`, not `end`:
at 1970-01-01T10:00:00Z to 11:00:00Z in UTC (epoch 36000 to 39600) it
returns `[(36000, 3600)]`, an interval whose end precedes its start, instead
of `[(36000, 39600)]`. -/
theorem C1_single_day_eval :
    split_interval utcTz 36000 39600 = [(36000, 3600)] ∧
    (split_interval utcTz 36000 39600).length = 1 ∧
    ((36000 : Int), (3600 : Int)) ≠ ((36000 : Int), (39600 : Int)) :=
  ⟨by decide, by decide, by decide⟩

/-- C2: the claim's coverage property fails on a same-local-date input whose
start is not the local midnight: for epoch 208800 to 212400 (both on UTC day
2) the single returned interval is `(208800, 176400)`, so the last interval's
end is not the original end and the durations sum to −32400, not
`end − start = 3600`. -/
theorem C2_coverage_eval :
    split_interval utcTz 208800 212400 = [(208800, 176400)] ∧
    ((split_interval utcTz 208800 212400).map (fun p => p.2 - p.1)).sum =
      -32400 ∧
    (-32400 : Int) ≠ 212400 - 208800 :=
  ⟨by decide, by decide, by decide⟩

/-- C4 counterexample: an interval with end before start that reaches the
Splitter does not make the run fail.  Record with start = 100000 (UTC day 1)
and end = 50000 (UTC day 0): the local dates differ, so `group_by_day` invokes
`split_interval`, which returns the empty sequence, and the run completes
normally with an empty (not failed) result. -/
theorem C4_cex :
    group_by_day (parseFix [("a", 100000), ("b", 50000)]) utcTz 0
        [⟨"a", "b", "t", "d"⟩] 0 200000 = .ok [] ∧
    split_interval utcTz 100000 50000 = [] ∧
    (50000 : Int) < 100000 ∧
    utcTz.date_naive 100000 ≠ utcTz.date_naive 50000 :=
  ⟨rfl, by decide, by decide, by decide⟩

/-- C4 (amended): an interval whose end is before its start that reaches the
Splitter is silently dropped — the `while current <= end` loop never runs, so
`split_interval` returns the empty sequence for every timezone; nothing is
swapped and no error is raised. -/
theorem C4_end_before_start_dropped (tz : Timezone) (s e : Int) (h : e < s) :
    split_interval tz s e = [] := by
  unfold split_interval
  rw [splitGo]
  rw [if_neg (by omega)]

theorem C4_witness : split_interval utcTz 7 3 = [] :=
  C4_end_before_start_dropped utcTz 7 3 (by norm_num)

/-- C5: for every non-negative total of seconds the formatter produces
HH:MM:SS with hours = total/3600 truncated and unbounded, minutes =
(total/60) mod 60, seconds = total mod 60; in particular 3661 seconds gives
"01:01:01" and 90000 seconds gives "25:00:00". -/
theorem C5_fmt_duration :
    (∀ s : Int, 0 ≤ s → fmt_duration s = fmt_duration_specForm s) ∧
    fmt_duration 3661 = "01:01:01" ∧
    fmt_duration 90000 = "25:00:00" := by
  refine ⟨?_, by decide, by decide⟩
  intro s h
  unfold fmt_duration fmt_duration_specForm
  rw [tdiv_tdiv_sixty s h]

theorem C5_witness : fmt_duration 7322 = fmt_duration_specForm 7322 :=
  C5_fmt_duration.1 7322 (by norm_num)

theorem processRecord_ok_inv {parse : String → Except ParseError Int}
    {tz : Timezone} {now ws we : Int} {r : Record}
    {segs : List ClippedSegment}
    (hpr : processRecord parse tz now ws we r = .ok segs) :
    ∃ ts te, parse r.start = .ok ts ∧ resolveEnd parse now r = .ok te := by
  cases h1 : parse r.start with
  | error e => simp [processRecord, h1] at hpr
  | ok ts =>
    cases h2 : resolveEnd parse now r with
    | error e => simp [processRecord, h1, h2] at hpr
    | ok te => exact ⟨ts, te, by simp [h1], by simp [h2]⟩

theorem processRecord_eq {parse : String → Except ParseError Int}
    {tz : Timezone} {now ws we ts te : Int} {r : Record}
    (hts : parse r.start = .ok ts) (hte : resolveEnd parse now r = .ok te) :
    processRecord parse tz now ws we r =
      if ¬ inR ws we ts ∧ ¬ inR ws we te then .ok []
      else if tz.date_naive ts = tz.date_naive te then
        .ok [clip ws we (splitTags r.tags) r.description (ts, te)]
      else
        .ok ((split_interval tz ts te).filterMap fun p =>
          if inR ws we p.1 ∨ inR ws we p.2 then
            some (clip ws we (splitTags r.tags) r.description p)
          else none) := by
  simp only [processRecord, hts, hte]

theorem group_by_day_singleton {parse : String → Except ParseError Int}
    {tz : Timezone} {now ws we : Int} {r : Record}
    {segs : List ClippedSegment}
    (h : group_by_day parse tz now [r] ws we = .ok segs) :
    processRecord parse tz now ws we r = .ok segs := by
  cases hp : processRecord parse tz now ws we r with
  | error m => simp [group_by_day, hp] at h
  | ok s =>
    simp only [group_by_day, hp] at h
    rw [List.append_nil] at h
    exact h

/-- C3 (amended): a record (with resolved start ≤ end) is kept by
`group_by_day` if and only if the record's own start or end epoch second lies
in `[window_start, window_end)`; for a record passing that record-level test
whose endpoints lie on different local dates, a Splitter sub-interval is kept
(clamped) if and only if the sub-interval's start or end lies in the range;
consequently a record that fully straddles the window is dropped entirely,
and so is any fully-straddling sub-interval. -/
theorem C3_window_or_policy (parse : String → Except ParseError Int)
    (tz : Timezone) (now ws we ts te : Int) (r : Record)
    (segs : List ClippedSegment)
    (hwf : tz.WF)
    (hts : parse r.start = .ok ts)
    (hte : resolveEnd parse now r = .ok te)
    (hle : ts ≤ te)
    (hgd : group_by_day parse tz now [r] ws we = .ok segs) :
    (segs ≠ [] ↔ (inR ws we ts ∨ inR ws we te)) ∧
    ((inR ws we ts ∨ inR ws we te) → tz.date_naive ts ≠ tz.date_naive te →
      segs = (split_interval tz ts te).filterMap fun p =>
        if inR ws we p.1 ∨ inR ws we p.2 then
          some (clip ws we (splitTags r.tags) r.description p)
        else none) ∧
    (ts < ws → we ≤ te → segs = []) ∧
    (∀ p ∈ split_interval tz ts te, p.1 < ws → we ≤ p.2 →
      ¬ (inR ws we p.1 ∨ inR ws we p.2)) := by
  have hpr := group_by_day_singleton hgd
  rw [processRecord_eq hts hte] at hpr
  have arith : ∀ p : Int × Int, p.1 < ws → we ≤ p.2 →
      ¬ (inR ws we p.1 ∨ inR ws we p.2) := by
    intro p h1 h2 hcon
    rcases hcon with h | h <;> unfold inR at h <;> omega
  by_cases hout : ¬ inR ws we ts ∧ ¬ inR ws we te
  · rw [if_pos hout] at hpr
    injection hpr with hpr
    subst hpr
    refine ⟨?_, ?_, fun _ _ => rfl, fun p _ => arith p⟩
    · constructor
      · intro hne; exact absurd rfl hne
      · intro hor; exact absurd hor (by tauto)
    · intro hor; exact absurd hor (by tauto)
  · have hor : inR ws we ts ∨ inR ws we te := by tauto
    rw [if_neg hout] at hpr
    by_cases hdate : tz.date_naive ts = tz.date_naive te
    · rw [if_pos hdate] at hpr
      injection hpr with hpr
      subst hpr
      refine ⟨⟨fun _ => hor, fun _ => by simp⟩, ?_, ?_, fun p _ => arith p⟩
      · intro _ hne; exact absurd hdate hne
      · intro h1 h2
        exact absurd hor (by have := arith (ts, te) h1 h2; tauto)
    · rw [if_neg hdate] at hpr
      injection hpr with hpr
      subst hpr
      obtain ⟨hchain, hne, _⟩ :=
        split_interval_spec hwf hle (fun hh => absurd hh hdate)
      refine ⟨⟨fun _ => hor, fun _ => ?_⟩, fun _ _ => rfl, ?_, fun p _ => arith p⟩
      · rcases hor with hin | hin
        · cases hsp : split_interval tz ts te with
          | nil => exact absurd hsp hne
          | cons p rest =>
            rw [hsp] at hchain
            have hp1 : p.1 = ts := hchain.1
            have htest : inR ws we p.1 ∨ inR ws we p.2 := by
              rw [hp1]; exact Or.inl hin
            rw [List.filterMap_cons, if_pos htest]
            simp
        · obtain ⟨p, hpmem, hp2⟩ := segChain_last_mem hchain hne
          intro hnil
          rw [List.filterMap_eq_nil_iff] at hnil
          have htest : inR ws we p.1 ∨ inR ws we p.2 := by
            rw [hp2]; exact Or.inr hin
          have := hnil p hpmem
          rw [if_pos htest] at this
          exact Option.noConfusion this
      · intro h1 h2
        exact absurd hor (by have := arith (ts, te) h1 h2; tauto)

/-- C3 counterexample to the claim as stated: a record spanning UTC days 0-3
with the reporting window exactly day 1.  The Splitter sub-interval
`(86400, 172800)` has its start inside `[86400, 172800)`, so the claimed
per-sub-interval "if and only if" requires it to be kept, yet `group_by_day`
emits nothing because the record-level test (on the record's own endpoints,
both outside the window) drops the whole record first. -/
theorem C3_cex :
    group_by_day (parseFix [("a", 0), ("b", 259300)]) utcTz 0
        [⟨"a", "b", "t", "d"⟩] 86400 172800 = .ok [] ∧
    ((86400 : Int), (172800 : Int)) ∈ split_interval utcTz 0 259300 ∧
    inR 86400 172800 86400 ∧
    ¬ inR 86400 172800 0 ∧ ¬ inR 86400 172800 259300 :=
  ⟨rfl, by decide, by decide, by decide, by decide⟩

theorem C3_witness :
    (([⟨0, 86400, ["t"], "d"⟩, ⟨86400, 90000, ["t"], "d"⟩] :
        List ClippedSegment) ≠ []) ↔
      (inR 0 1000000 0 ∨ inR 0 1000000 90000) :=
  (C3_window_or_policy (parseFix [("a", 0), ("b", 90000)]) utcTz 0 0 1000000
    0 90000 ⟨"a", "b", "t", "d"⟩
    [⟨0, 86400, ["t"], "d"⟩, ⟨86400, 90000, ["t"], "d"⟩]
    utcTz_wf rfl rfl (by norm_num) (by rfl)).1

theorem processRecord_bounds {parse : String → Except ParseError Int}
    {tz : Timezone} {now ws we ts te : Int} {r : Record}
    {segs : List ClippedSegment}
    (hwf : tz.WF)
    (hts : parse r.start = .ok ts) (hte : resolveEnd parse now r = .ok te)
    (hle : ts ≤ te)
    (hpr : processRecord parse tz now ws we r = .ok segs) :
    ∀ seg ∈ segs, ws ≤ seg.start_epoch_seconds ∧ seg.start_epoch_seconds ≤ we ∧
      ws ≤ seg.end_epoch_seconds ∧ seg.end_epoch_seconds ≤ we := by
  rw [processRecord_eq hts hte] at hpr
  have key : ∀ p : Int × Int, p.1 ≤ p.2 → (inR ws we p.1 ∨ inR ws we p.2) →
      ws ≤ max p.1 ws ∧ max p.1 ws ≤ we ∧ ws ≤ min p.2 we ∧ min p.2 we ≤ we := by
    intro p hp hin
    rcases max_cases p.1 ws with ⟨h1, h2⟩ | ⟨h1, h2⟩ <;>
      rcases min_cases p.2 we with ⟨h3, h4⟩ | ⟨h3, h4⟩ <;>
      rcases hin with h5 | h5 <;> unfold inR at h5 <;>
      rw [h1, h3] <;> omega
  by_cases hout : ¬ inR ws we ts ∧ ¬ inR ws we te
  · rw [if_pos hout] at hpr
    injection hpr with hpr
    subst hpr
    intro seg hseg
    simp at hseg
  · have hor : inR ws we ts ∨ inR ws we te := by tauto
    rw [if_neg hout] at hpr
    by_cases hdate : tz.date_naive ts = tz.date_naive te
    · rw [if_pos hdate] at hpr
      injection hpr with hpr
      subst hpr
      intro seg hseg
      rw [List.mem_singleton] at hseg
      subst hseg
      simpa [clip] using key (ts, te) hle hor
    · rw [if_neg hdate] at hpr
      injection hpr with hpr
      subst hpr
      obtain ⟨_, _, hmono⟩ :=
        split_interval_spec hwf hle (fun hh => absurd hh hdate)
      intro seg hseg
      rw [List.mem_filterMap] at hseg
      obtain ⟨p, hpmem, hpf⟩ := hseg
      by_cases htest : inR ws we p.1 ∨ inR ws we p.2
      · rw [if_pos htest] at hpf
        injection hpf with hpf
        subst hpf
        simpa [clip] using key p (hmono p hpmem) htest
      · rw [if_neg htest] at hpf
        exact Option.noConfusion hpf

/-- C6 (amended): when every record's resolved end is at or after its
resolved start (the spec's LogEntry invariant), every ClippedSegment emitted
by `group_by_day` has both bounds inside the closed window
`[window_start, window_end]`. -/
theorem C6_clamping (parse : String → Except ParseError Int) (tz : Timezone)
    (now ws we : Int) (records : List Record) (out : List ClippedSegment)
    (hwf : tz.WF)
    (hval : ∀ r ∈ records, ∀ ts te, parse r.start = .ok ts →
      resolveEnd parse now r = .ok te → ts ≤ te)
    (hgd : group_by_day parse tz now records ws we = .ok out) :
    ∀ seg ∈ out, ws ≤ seg.start_epoch_seconds ∧ seg.start_epoch_seconds ≤ we ∧
      ws ≤ seg.end_epoch_seconds ∧ seg.end_epoch_seconds ≤ we := by
  induction records generalizing out with
  | nil =>
    simp only [group_by_day] at hgd
    injection hgd with hgd
    subst hgd
    intro seg hseg
    simp at hseg
  | cons r rs ih =>
    cases hp : processRecord parse tz now ws we r with
    | error m => simp [group_by_day, hp] at hgd
    | ok s1 =>
      cases hg : group_by_day parse tz now rs ws we with
      | error m => simp [group_by_day, hp, hg] at hgd
      | ok s2 =>
        simp only [group_by_day, hp, hg] at hgd
        injection hgd with hgd
        subst hgd
        intro seg hseg
        rcases List.mem_append.mp hseg with h | h
        · obtain ⟨ts, te, hts, hte⟩ := processRecord_ok_inv hp
          exact processRecord_bounds hwf hts hte
            (hval r (List.mem_cons_self r rs) ts te hts hte) hp seg h
        · exact ih s2 (fun r' hr' => hval r' (List.mem_cons_of_mem _ hr')) hg seg h

/-- C6 counterexample to the claim as stated over all inputs: a same-local-day
record whose resolved end (150) is before its start (300), with window
`[100, 200]`.  Its end lies in the half-open range, so the record is kept,
and the emitted segment's start bound is 300, outside the closed window. -/
theorem C6_cex :
    group_by_day (parseFix [("s", 300), ("e", 150)]) utcTz 0
        [⟨"s", "e", "t", "d"⟩] 100 200 = .ok [⟨300, 150, ["t"], "d"⟩] ∧
    ¬ ((300 : Int) ≤ 200) :=
  ⟨by rfl, by decide⟩

theorem C6_witness :
    group_by_day (parseFix [("a", 10), ("b", 20)]) utcTz 0
        [⟨"a", "b", "t", "d"⟩] 0 100 = .ok [⟨10, 20, ["t"], "d"⟩] ∧
    ((0 : Int) ≤ 10 ∧ (10 : Int) ≤ 100 ∧ (0 : Int) ≤ 20 ∧ (20 : Int) ≤ 100) :=
  ⟨by rfl,
    C6_clamping (parseFix [("a", 10), ("b", 20)]) utcTz 0 0 100
      [⟨"a", "b", "t", "d"⟩] [⟨10, 20, ["t"], "d"⟩] utcTz_wf
      (by
        intro r hr ts te h1 h2
        rw [List.mem_singleton] at hr
        subst hr
        injection h1 with h1
        injection h2 with h2
        omega)
      (by rfl) ⟨10, 20, ["t"], "d"⟩ (by simp)⟩

/-- C9 (amended): an input containing a record with a malformed start or end
timestamp makes the whole run abort (the per-record `.unwrap()` panic is
fatal; there is no per-record recovery and no partial result). -/
theorem C9_fatal_abort (parse : String → Except ParseError Int) (tz : Timezone)
    (now : Int) (records : List Record) (ws we : Int)
    (hbad : ∃ r ∈ records, (∃ e, parse r.start = .error e) ∨
      (r.end_ ≠ "" ∧ ∃ e, parse r.end_ = .error e)) :
    isFatal (group_by_day parse tz now records ws we) = true := by
  revert hbad
  induction records with
  | nil =>
    intro hbad
    obtain ⟨r, hr, _⟩ := hbad
    exact absurd hr (List.not_mem_nil r)
  | cons r rs ih =>
    intro hbad
    cases h1 : parse r.start with
    | error e =>
      have hpr : processRecord parse tz now ws we r = .error (unwrapMsg e) := by
        simp [processRecord, h1]
      simp [group_by_day, hpr, isFatal]
    | ok ts =>
      cases h2 : resolveEnd parse now r with
      | error e =>
        have hpr : processRecord parse tz now ws we r =
            .error (unwrapMsg e) := by
          simp [processRecord, h1, h2]
        simp [group_by_day, hpr, isFatal]
      | ok te =>
        have hbad' : ∃ r' ∈ rs, (∃ e, parse r'.start = .error e) ∨
            (r'.end_ ≠ "" ∧ ∃ e, parse r'.end_ = .error e) := by
          obtain ⟨r', hr', hb⟩ := hbad
          rcases List.mem_cons.mp hr' with rfl | hmem
          · exfalso
            rcases hb with ⟨e, he⟩ | ⟨hne, e, he⟩
            · rw [h1] at he
              exact Except.noConfusion he
            · simp only [resolveEnd, if_neg hne] at h2
              rw [he] at h2
              exact Except.noConfusion h2
          · exact ⟨r', hmem, hb⟩
        have hih := ih hbad'
        cases hg : group_by_day parse tz now rs ws we with
        | error m =>
          obtain ⟨segs, hpr⟩ :
              ∃ segs, processRecord parse tz now ws we r = .ok segs := by
            rw [processRecord_eq h1 h2]
            split_ifs <;> exact ⟨_, rfl⟩
          simp [group_by_day, hpr, hg, isFatal]
        | ok s =>
          rw [hg] at hih
          simp [isFatal] at hih

/-- C9 counterexample to the diagnostic part of the claim as stated: for the
record whose `start` field is the malformed "XYZ", the run aborts with the
`.unwrap()` panic message, yet that diagnostic contains neither the offending
raw value "XYZ" nor the name of the offending field ("start") — splitting the
message on either substring leaves it whole. -/
theorem C9_cex :
    group_by_day (parseFix []) utcTz 0 [⟨"XYZ", "", "t", "d"⟩] 0 100 =
      .error "called `Result::unwrap()` on an `Err` value: ParseError(Invalid)" ∧
    hasSub "XYZ".data
      "called `Result::unwrap()` on an `Err` value: ParseError(Invalid)".data =
      false ∧
    hasSub "start".data
      "called `Result::unwrap()` on an `Err` value: ParseError(Invalid)".data =
      false :=
  ⟨by rfl, by decide, by decide⟩

theorem C9_witness :
    isFatal (group_by_day (parseFix [("good", 5)]) utcTz 0
      [⟨"good", "bad", "", ""⟩] 0 100) = true :=
  C9_fatal_abort (parseFix [("good", 5)]) utcTz 0 [⟨"good", "bad", "", ""⟩] 0 100
    ⟨⟨"good", "bad", "", ""⟩, List.mem_singleton.mpr rfl,
      Or.inr ⟨by decide, ⟨⟨.invalid⟩, rfl⟩⟩⟩

theorem dayTotal_eq_sum (tz : Timezone) (data : List (Int × Int)) (d : Int) :
    dayTotal tz data d =
      ((data.filter (fun e => tz.date_naive e.1 == d)).map
        (fun e => e.2 - e.1)).sum := by
  unfold dayTotal
  split
  · rfl
  · rename_i hany
    rw [Bool.not_eq_true, List.any_eq_false] at hany
    rw [List.filter_eq_nil_iff.mpr hany]
    simp

theorem DateRange_getElem (a b : Int) (h : a ≤ b) (i : Nat) :
    (DateRange a b)[i]? =
      if i ≤ (b - a).toNat then some (a + i) else none := by
  rw [DateRange, if_pos h]
  by_cases hi : i < (b - a).toNat + 1
  · rw [List.getElem?_map, List.getElem?_range hi]
    simp only [Option.map_some']
    rw [if_pos (by omega)]
  · rw [List.getElem?_eq_none (by rw [List.length_map, List.length_range]; omega)]
    rw [if_neg (by omega)]

/-- C7: for a window with start day ≤ end day, the per-day series has exactly
`(end_date - start_date) + 1` entries, one per calendar day in chronological
order with no gaps, the i-th label being the (injected) ISO rendering of
`start_date + i`, and the i-th value being the sum of `end - start` over the
segments whose clipped start falls on local day `start_date + i` (0 for days
with no activity, by the zero fill). -/
theorem C7_day_series (tz : Timezone) (toIso : Int → String)
    (data : List (Int × Int)) (sd ed : Int) (h : sd ≤ ed) :
    ((bar tz toIso data sd ed).1.length = (ed - sd).toNat + 1) ∧
    ((bar tz toIso data sd ed).2.length = (ed - sd).toNat + 1) ∧
    (∀ i : Nat, (bar tz toIso data sd ed).1[i]? =
      if i ≤ (ed - sd).toNat then some (toIso (sd + i)) else none) ∧
    (∀ i : Nat, (bar tz toIso data sd ed).2[i]? =
      if i ≤ (ed - sd).toNat then
        some (((data.filter (fun e => tz.date_naive e.1 == sd + i)).map
          (fun e => e.2 - e.1)).sum)
      else none) := by
  have hbar : bar tz toIso data sd ed =
      ((DateRange sd ed).map (fun date => toIso date),
        (DateRange sd ed).map (fun date => dayTotal tz data date)) := by
    rw [bar, List.unzip_eq_map, List.map_map, List.map_map]
    rfl
  have hlen : (DateRange sd ed).length = (ed - sd).toNat + 1 := by
    rw [DateRange, if_pos h, List.length_map, List.length_range]
  refine ⟨?_, ?_, ?_, ?_⟩
  · rw [hbar]
    show (List.map (fun date => toIso date) (DateRange sd ed)).length = _
    rw [List.length_map]
    exact hlen
  · rw [hbar]
    show (List.map (fun date => dayTotal tz data date) (DateRange sd ed)).length = _
    rw [List.length_map]
    exact hlen
  · intro i
    rw [hbar]
    show ((DateRange sd ed).map (fun date => toIso date))[i]? = _
    rw [List.getElem?_map, DateRange_getElem sd ed h i]
    by_cases hi : i ≤ (ed - sd).toNat
    · rw [if_pos hi, if_pos hi]; rfl
    · rw [if_neg hi, if_neg hi]; rfl
  · intro i
    rw [hbar]
    show ((DateRange sd ed).map (fun date => dayTotal tz data date))[i]? = _
    rw [List.getElem?_map, DateRange_getElem sd ed h i]
    by_cases hi : i ≤ (ed - sd).toNat
    · rw [if_pos hi, if_pos hi]
      simp only [Option.map_some']
      rw [dayTotal_eq_sum]
    · rw [if_neg hi, if_neg hi]; rfl

theorem C7_witness :
    (bar utcTz (fun d => toString d) [((86400 : Int), (86500 : Int))] 0 2).2[1]? =
      some 100 :=
  ((C7_day_series utcTz (fun d => toString d) [((86400 : Int), (86500 : Int))]
    0 2 (by norm_num)).2.2.2 1).trans (by decide)

theorem lookupCount_bump (l : List (String × Nat)) (s t : String) :
    lookupCount (bump l s) t =
      lookupCount l t + (if s = t then 1 else 0) := by
  induction l with
  | nil => by_cases h : s = t <;> simp [bump, lookupCount, h]
  | cons kn rest ih =>
    obtain ⟨k, n⟩ := kn
    by_cases h1 : k = s
    · subst h1
      by_cases h2 : k = t <;> simp [bump, lookupCount, h2]
    · by_cases h2 : k = t
      · have hst : ¬ s = t := fun hh => h1 (h2.trans hh.symm)
        have h1' : ¬ t = s := h2 ▸ h1
        simp [bump, lookupCount, h1, h2, h1', hst]
      · simp [bump, lookupCount, h1, h2, ih]

theorem sumCounts_bump (l : List (String × Nat)) (s : String) :
    sumCounts (bump l s) = sumCounts l + 1 := by
  induction l with
  | nil => simp [bump, sumCounts]
  | cons kn rest ih =>
    obtain ⟨k, n⟩ := kn
    simp only [sumCounts] at ih
    by_cases h : k = s
    · simp [bump, sumCounts, h]
      omega
    · simp [bump, sumCounts, h, ih]
      omega

theorem lookupCount_foldl_bump (l : List String)
    (acc : List (String × Nat)) (t : String) :
    lookupCount (l.foldl bump acc) t = lookupCount acc t + l.count t := by
  induction l generalizing acc with
  | nil => simp
  | cons s ss ih =>
    rw [List.foldl_cons, ih (bump acc s), lookupCount_bump, List.count_cons]
    by_cases h : s = t
    · simp [h]
      omega
    · simp [h]

theorem sumCounts_foldl_bump (l : List String) (acc : List (String × Nat)) :
    sumCounts (l.foldl bump acc) = sumCounts acc + l.length := by
  induction l generalizing acc with
  | nil => simp
  | cons s ss ih =>
    rw [List.foldl_cons, ih (bump acc s), sumCounts_bump, List.length_cons]
    omega

/-- C8: the tag distribution built by `count` over the tags flattened from
all segments maps each tag to its number of occurrences across segments (one
per listing in a segment's tag sequence), and the per-tag counts sum to the
total number of tag occurrences. -/
theorem C8_tag_counts (entries : List ClippedSegment) :
    (∀ t : String, lookupCount (countFold (tagOccurrences entries)) t =
      (tagOccurrences entries).count t) ∧
    ((count (tagOccurrences entries)).map Prod.fst).sum =
      (tagOccurrences entries).length := by
  constructor
  · intro t
    have h := lookupCount_foldl_bump (tagOccurrences entries) [] t
    simpa [countFold, lookupCount] using h
  · have h := sumCounts_foldl_bump (tagOccurrences entries) []
    have hmap : (count (tagOccurrences entries)).map Prod.fst =
        (countFold (tagOccurrences entries)).map Prod.snd := by
      rw [count, List.map_map]
      rfl
    rw [hmap]
    simpa [countFold, sumCounts] using h

theorem C8_witness :
    lookupCount (countFold (tagOccurrences [⟨0, 1, ["a", "b", "a"], "x"⟩])) "a" =
      (tagOccurrences [⟨0, 1, ["a", "b", "a"], "x"⟩]).count "a" :=
  (C8_tag_counts [⟨0, 1, ["a", "b", "a"], "x"⟩]).1 "a"

theorem count_occurrences_all_empty (entries : List ClippedSegment)
    (hall : ∀ e ∈ entries, e.tags = [""]) :
    (tagOccurrences entries).count "" = entries.length := by
  revert hall
  induction entries with
  | nil => intro _; simp [tagOccurrences]
  | cons e es ih =>
    intro hall
    have he := hall e (List.mem_cons_self _ _)
    have hrest := ih (fun x hx => hall x (List.mem_cons_of_mem _ hx))
    rw [tagOccurrences, List.flatMap_cons, List.count_append, he]
    rw [tagOccurrences] at hrest
    rw [hrest, List.length_cons]
    have h1 : List.count "" [""] = 1 := by decide
    rw [h1]
    omega

/-- C10: a kept record with an empty raw tags field yields ClippedSegments
whose tag sequence is exactly `[""]` (Rust's split of the empty string), and
the empty string is counted as an ordinary tag by the distribution: when all
segments carry `[""]`, the count of `""` equals the number of segments. -/
theorem C10_empty_tags :
    splitTags "" = [""] ∧
    (∀ (parse : String → Except ParseError Int) (tz : Timezone)
        (now ws we : Int) (r : Record) (segs : List ClippedSegment),
      r.tags = "" → processRecord parse tz now ws we r = .ok segs →
      ∀ seg ∈ segs, seg.tags = [""]) ∧
    (∀ entries : List ClippedSegment, (∀ e ∈ entries, e.tags = [""]) →
      lookupCount (countFold (tagOccurrences entries)) "" = entries.length) := by
  refine ⟨by decide, ?_, ?_⟩
  · intro parse tz now ws we r segs htags hpr seg hseg
    obtain ⟨ts, te, hts, hte⟩ := processRecord_ok_inv hpr
    rw [processRecord_eq hts hte] at hpr
    by_cases hout : ¬ inR ws we ts ∧ ¬ inR ws we te
    · rw [if_pos hout] at hpr
      injection hpr with hpr
      subst hpr
      simp at hseg
    · rw [if_neg hout] at hpr
      by_cases hdate : tz.date_naive ts = tz.date_naive te
      · rw [if_pos hdate] at hpr
        injection hpr with hpr
        subst hpr
        rw [List.mem_singleton] at hseg
        subst hseg
        show splitTags r.tags = [""]
        rw [htags]
        decide
      · rw [if_neg hdate] at hpr
        injection hpr with hpr
        subst hpr
        rw [List.mem_filterMap] at hseg
        obtain ⟨p, hpmem, hpf⟩ := hseg
        by_cases htest : inR ws we p.1 ∨ inR ws we p.2
        · rw [if_pos htest] at hpf
          injection hpf with hpf
          subst hpf
          show splitTags r.tags = [""]
          rw [htags]
          decide
        · rw [if_neg htest] at hpf
          exact Option.noConfusion hpf
  · intro entries hall
    have h := lookupCount_foldl_bump (tagOccurrences entries) [] ""
    rw [countFold]
    rw [h]
    show 0 + _ = _
    rw [count_occurrences_all_empty entries hall]
    omega

theorem C10_witness :
    lookupCount (countFold (tagOccurrences
      [⟨0, 1, [""], "x"⟩, ⟨2, 3, [""], "y"⟩])) "" = 2 :=
  C10_empty_tags.2.2 [⟨0, 1, [""], "x"⟩, ⟨2, 3, [""], "y"⟩] (by decide)
